import Mathlib

/-!
A shallow embedding of the core of the `chaintap` event indexer
(TypeScript), together with proofs of the behavioural properties stated in
its specification.  The embedding keeps the source structure: the SQLite
storage adapter becomes explicit state passing over a `DB` record, the
chunked log fetcher becomes a fuel-indexed loop over an RPC oracle, the
provider pool becomes a pure state machine, and the error-classification
predicates become Boolean functions over a small universe of JavaScript
values.
-/

namespace Chaintap

/-! ## String utilities

JavaScript `String.prototype.toLowerCase` / `String.prototype.includes`,
modelled over `List Char` so that everything reduces structurally. -/

/-- `listBeginsWith pat l` : does `l` start with `pat`? -/
def listBeginsWith : List Char → List Char → Bool
  | [], _ => true
  | _ :: _, [] => false
  | p :: ps, c :: cs => p == c && listBeginsWith ps cs

/-- `listContainsSub pat l` : does `pat` occur as a contiguous sublist of `l`? -/
def listContainsSub (pat : List Char) : List Char → Bool
  | [] => pat.isEmpty
  | c :: cs => listBeginsWith pat (c :: cs) || listContainsSub pat cs

/-- `s.toLowerCase().includes(pat)` for an already-lowercase pattern `pat`. -/
def lowerContains (s : String) (pat : String) : Bool :=
  listContainsSub pat.data (s.data.map Char.toLower)

/-! ## The block-range-error classifier (`EventFetcher.isBlockRangeError`)

The source lowercases the error message and looks for one of three
substrings. -/

/-- `EventFetcher.isBlockRangeError`: the lowercased message contains
`"block range"`, `"query returned more than"` or `"exceeds max"`. -/
def isBlockRangeError (msg : String) : Bool :=
  lowerContains msg "block range" ||
  lowerContains msg "query returned more than" ||
  lowerContains msg "exceeds max"

/-! ## Raw logs and decoded events -/

/-- A raw log as returned by `eth_getLogs` (`ethers.Log`), restricted to
the fields the indexer consumes. -/
structure RawLog where
  address : String
  blockNumber : Nat
  transactionHash : String
  logIndex : Nat
  topics : List String
  data : String
deriving DecidableEq, Repr

/-- `DecodedEvent` (src/core/types): the canonical unit of output.
`eventData` holds the JSON text of the payload. -/
structure DecodedEvent where
  contractAddress : String
  blockNumber : Nat
  blockTimestamp : Nat
  transactionHash : String
  logIndex : Nat
  eventName : String
  eventData : String
deriving DecidableEq, Repr

/-! ## The chunked fetch loop (`EventFetcher.fetchEvents`, lines 43–95)

The provider is modelled as an oracle mapping the zero-based index of the
`getLogs` call together with the requested window to an outcome.  The loop
state carries the cursor (`currentBlock`), the working chunk size, the
per-provider cached chunk size (`blockRangeLimits` entry for this
provider), the list of windows submitted to `getLogs` so far, and the
accumulated raw logs.  Fuel makes the loop total; the source loop can spin
forever at the 100-block floor, which the fuel-exhausted case reports as
an error. -/

/-- Outcome of one `provider.getLogs` call: a list of logs, or a thrown
`Error` carrying a message. -/
inductive RpcOutcome where
  | ok (logs : List RawLog)
  | err (msg : String)
deriving DecidableEq, Repr

/-- State of the `fetchEvents` chunk loop. -/
structure FetchState where
  currentBlock : Nat
  chunkSize : Nat
  cachedLimit : Option Nat
  calls : List (Nat × Nat)
  logs : List RawLog
deriving DecidableEq, Repr

/-- One window of the chunk loop: `min(currentBlock + chunkSize - 1, toBlock)`. -/
def rangeEndOf (currentBlock chunkSize toBlock : Nat) : Nat :=
  min (currentBlock + chunkSize - 1) toBlock

/-- The chunk loop of `EventFetcher.fetchEvents`.  On success the cursor
advances past the window; on a block-range error the chunk size becomes
`max (chunkSize / 2) 100`, is cached for the provider, and the same window
is retried; any other error propagates. -/
def fetchLoop (oracle : Nat → Nat × Nat → RpcOutcome) (toBlock : Nat) :
    Nat → FetchState → Except String FetchState
  | 0, _ => .error "out of fuel"
  | fuel + 1, s =>
    if s.currentBlock ≤ toBlock then
      let rangeEnd := rangeEndOf s.currentBlock s.chunkSize toBlock
      match oracle s.calls.length (s.currentBlock, rangeEnd) with
      | .ok logs =>
          fetchLoop oracle toBlock fuel
            { s with
              logs := s.logs ++ logs
              currentBlock := rangeEnd + 1
              calls := s.calls ++ [(s.currentBlock, rangeEnd)] }
      | .err msg =>
          if isBlockRangeError msg then
            let newChunk := max (s.chunkSize / 2) 100
            fetchLoop oracle toBlock fuel
              { s with
                chunkSize := newChunk
                cachedLimit := some newChunk
                calls := s.calls ++ [(s.currentBlock, rangeEnd)] }
          else
            .error msg
    else
      .ok s

/-- Initial loop state for a fetch over `[fromBlock, toBlock]` with the
given effective chunk size (`blockRangeLimits.get(id) ?? initialChunkSize`). -/
def initFetchState (fromBlock chunkSize : Nat) : FetchState :=
  { currentBlock := fromBlock
    chunkSize := chunkSize
    cachedLimit := none
    calls := []
    logs := [] }

/-- The oracle of spec scenario 2: the first `getLogs` call throws
"block range too large"; every later call succeeds with no logs. -/
def scenarioOracle : Nat → Nat × Nat → RpcOutcome
  | 0, _ => .err "block range too large"
  | _ + 1, _ => .ok []

/-! ## Storage engine (`SQLiteAdapter`)

The database is modelled as the list of `events` rows (in insertion
order) plus the `sync_state` table as an association list keyed by
contract address.  Wall-clock reads (`Date.now()`) become an explicit
`now` argument. -/

/-- One row of the `events` table (the autoincrement `id` is the list
position and is not materialised). -/
structure EventRow where
  contract_address : String
  block_number : Nat
  block_timestamp : Nat
  transaction_hash : String
  log_index : Nat
  event_name : String
  event_data : String
  indexed_at : Nat
deriving DecidableEq, Repr

/-- One row of the `sync_state` table (sans its `contract_address` key). -/
structure SyncRow where
  chain_id : Nat
  last_block : Nat
  last_sync : Nat
  status : String
deriving DecidableEq, Repr

/-- The database: the `events` table in insertion order and the
`sync_state` table keyed by contract address. -/
structure DB where
  events : List EventRow
  sync_state : List (String × SyncRow)
deriving DecidableEq, Repr

/-- A freshly initialised store (`SQLiteAdapter.init` on a new file). -/
def emptyDB : DB := { events := [], sync_state := [] }

/-- The `UNIQUE(transaction_hash, log_index)` check: is the pair already
present in the events table? -/
def hasPair (rows : List EventRow) (tx : String) (li : Nat) : Bool :=
  rows.any fun r => r.transaction_hash == tx && r.log_index == li

/-- `INSERT OR IGNORE` of a single decoded event with `indexed_at = now`:
returns the new table and `result.changes` (1 if inserted, 0 if ignored). -/
def insertIgnore (now : Nat) (rows : List EventRow) (e : DecodedEvent) :
    List EventRow × Nat :=
  if hasPair rows e.transactionHash e.logIndex then
    (rows, 0)
  else
    (rows ++ [{ contract_address := e.contractAddress
                block_number := e.blockNumber
                block_timestamp := e.blockTimestamp
                transaction_hash := e.transactionHash
                log_index := e.logIndex
                event_name := e.eventName
                event_data := e.eventData
                indexed_at := now }], 1)

/-- One iteration of the `insertEvents` loop: run the insert-ignore and
accumulate `result.changes`. -/
def insertStep (now : Nat) (acc : Nat × List EventRow) (e : DecodedEvent) :
    Nat × List EventRow :=
  let step := insertIgnore now acc.2 e
  (acc.1 + step.2, step.1)

/-- `SQLiteAdapter.insertEvents`: one transaction inserting each event
with `INSERT OR IGNORE`, returning the count of rows actually inserted
and the new database. -/
def insertEvents (now : Nat) (db : DB) (events : List DecodedEvent) :
    Nat × DB :=
  if events.length = 0 then
    (0, db)
  else
    let fin := events.foldl (insertStep now) ((0 : Nat), db.events)
    (fin.1, { db with events := fin.2 })

/-- `SQLiteAdapter.getLastSyncedBlock`: `last_block` for the address, or
`none` when no `sync_state` row exists. -/
def getLastSyncedBlock (db : DB) (contractAddress : String) : Option Nat :=
  (db.sync_state.lookup contractAddress).map (·.last_block)

/-- The `INSERT ... ON CONFLICT(contract_address) DO UPDATE` upsert of
`sync_state`: a new row gets the default status `"active"`; on conflict
only `last_block` and `last_sync` are updated. -/
def upsertSyncState (now : Nat) (tbl : List (String × SyncRow))
    (contractAddress : String) (chainId blockNumber : Nat) :
    List (String × SyncRow) :=
  match tbl.lookup contractAddress with
  | none =>
      tbl ++ [(contractAddress,
        { chain_id := chainId, last_block := blockNumber, last_sync := now
          status := "active" })]
  | some row =>
      tbl.map fun kv =>
        if kv.1 == contractAddress then
          (kv.1, { row with last_block := blockNumber, last_sync := now })
        else kv

/-- `SQLiteAdapter.updateSyncStateAndInsertEvents`: one transaction that
upserts `sync_state` and then `INSERT OR IGNORE`s each event of the
batch.  In the pure model the transaction is a single state-to-state
function, so both effects appear together or (on a thrown error, which
the model leaves to the caller) not at all. -/
def updateSyncStateAndInsertEvents (now : Nat) (db : DB)
    (contractAddress : String) (chainId blockNumber : Nat)
    (events : List DecodedEvent) : DB :=
  let sync := upsertSyncState now db.sync_state contractAddress chainId blockNumber
  let rows :=
    if events.length > 0 then
      events.foldl (fun acc e => (insertIgnore now acc e).1) db.events
    else
      db.events
  { events := rows, sync_state := sync }

/-- `EventFilter` (src/storage/adapter): every field optional. -/
structure EventFilter where
  contractAddress : Option String := none
  eventName : Option String := none
  fromBlock : Option Nat := none
  toBlock : Option Nat := none
  limit : Option Nat := none
  offset : Option Nat := none
deriving Repr

/-- The `WHERE` clause of `SQLiteAdapter.queryEvents`. -/
def matchesFilter (f : EventFilter) (r : EventRow) : Bool :=
  (match f.contractAddress with
   | none => true
   | some a => r.contract_address == a) &&
  (match f.eventName with
   | none => true
   | some n => r.event_name == n) &&
  (match f.fromBlock with
   | none => true
   | some b => b ≤ r.block_number) &&
  (match f.toBlock with
   | none => true
   | some b => r.block_number ≤ b)

/-- `ORDER BY block_number ASC, log_index ASC` as a Boolean order. -/
def rowLE (a b : EventRow) : Bool :=
  a.block_number < b.block_number ||
  (a.block_number == b.block_number && a.log_index ≤ b.log_index)

/-- Insert a row into a `rowLE`-sorted list, keeping it sorted. -/
def insertRow (r : EventRow) : List EventRow → List EventRow
  | [] => [r]
  | x :: xs => if rowLE x r then x :: insertRow r xs else r :: x :: xs

/-- Stable sort by `(block_number, log_index)`. -/
def sortRows : List EventRow → List EventRow
  | [] => []
  | x :: xs => insertRow x (sortRows xs)

/-- `SQLiteAdapter.queryEvents`: filter, order by `(block_number,
log_index)`, then apply `LIMIT`/`OFFSET` (an offset without a limit gets
`Number.MAX_SAFE_INTEGER` as the implied limit). -/
def queryEvents (db : DB) (f : EventFilter) : List EventRow :=
  let rows := db.events.filter (matchesFilter f)
  let sorted := sortRows rows
  match f.limit, f.offset with
  | some l, some o => (sorted.drop o).take l
  | some l, none => sorted.take l
  | none, some o => (sorted.drop o).take (2 ^ 53 - 1)
  | none, none => sorted

/-! ## Provider pool (`ProviderPool`)

A `ProviderEntry` keeps the health bookkeeping of one RPC endpoint; the
pool state is the priority-sorted entry list plus the round-robin cursor
and the two options.  The `ethers.JsonRpcProvider` handle carries no
behaviour in the model. -/

/-- In-memory health record of one endpoint (`ProviderEntry`). -/
structure PoolEntry where
  id : String
  url : String
  priority : Int
  healthy : Bool
  consecutiveFailures : Nat
  lastFailure : Option Nat
  lastSuccess : Option Nat
  lastError : Option String
deriving DecidableEq, Repr

/-- A fresh entry as built by the `ProviderPool` constructor. -/
def initEntry (id url : String) (priority : Int) : PoolEntry :=
  { id := id, url := url, priority := priority, healthy := true
    consecutiveFailures := 0, lastFailure := none, lastSuccess := none
    lastError := none }

/-- `ProviderPool` state: entries sorted by priority descending, the
round-robin cursor, and the two options. -/
structure PoolState where
  providerList : List PoolEntry
  roundRobinIndex : Nat
  failureThreshold : Nat
  cooldownPeriod : Nat
deriving Repr

/-- `ProviderPool.reportSuccess` on one entry: reset the failure counter,
mark healthy, stamp `lastSuccess`, clear `lastError`. -/
def reportSuccessEntry (now : Nat) (e : PoolEntry) : PoolEntry :=
  { e with healthy := true, consecutiveFailures := 0
           lastSuccess := some now, lastError := none }

/-- `ProviderPool.reportFailure` on one entry: bump the failure counter,
stamp `lastFailure` and `lastError`, and mark unhealthy when the counter
reaches `failureThreshold`. -/
def reportFailureEntry (threshold : Nat) (now : Nat) (msg : String)
    (e : PoolEntry) : PoolEntry :=
  let e' := { e with consecutiveFailures := e.consecutiveFailures + 1
                     lastFailure := some now, lastError := some msg }
  if threshold ≤ e'.consecutiveFailures then
    { e' with healthy := false }
  else
    e'

/-- One report delivered to the pool for a given entry. -/
inductive PoolReport where
  | success (now : Nat)
  | failure (now : Nat) (msg : String)
deriving DecidableEq, Repr

/-- Is the report a failure report? -/
def PoolReport.isFailureReport : PoolReport → Bool
  | .success _ => false
  | .failure _ _ => true

/-- Apply one report to an entry. -/
def applyReport (threshold : Nat) (e : PoolEntry) : PoolReport → PoolEntry
  | .success now => reportSuccessEntry now e
  | .failure now msg => reportFailureEntry threshold now msg e

/-- Apply a sequence of reports, oldest first. -/
def applyReports (threshold : Nat) (e : PoolEntry) (rs : List PoolReport) :
    PoolEntry :=
  rs.foldl (applyReport threshold) e

/-- The number of trailing failure reports — the consecutive failures an
entry has accumulated with no intervening success. -/
def trailingFailures (rs : List PoolReport) : Nat :=
  (rs.reverse.takeWhile (fun r => r.isFailureReport)).length

/-- The per-healthy-endpoint weight used by `getProvider`:
`Math.max(1, priority - basePriority + 1)` (a `Nat`, being at least 1). -/
def weightOf (base p : Int) : Nat := (max 1 (p - base + 1)).toNat

/-- The priority-weighted selection list built by `getProvider` from the
healthy entries (in list order): each entry repeated `weightOf base`
times, where `base = Math.max(0, lastHealthy.priority)`. -/
def weightedListOf (base : Int) (healthy : List PoolEntry) : List PoolEntry :=
  healthy.flatMap fun p => List.replicate (weightOf base p.priority) p

/-- `ProviderPool.getProvider`: partition into healthy/unhealthy, and
when healthy endpoints exist pick position `roundRobinIndex % length` of
the weighted list and advance the cursor; otherwise fall back to the
last unhealthy endpoint whose failure is older than the cooldown; else
fail with "No healthy providers available".  The impossible
out-of-bounds read of the weighted list is reported as its own error. -/
def getProvider (now : Nat) (st : PoolState) :
    Except String (PoolEntry × PoolState) :=
  let healthy := st.providerList.filter (·.healthy)
  let eligible := st.providerList.filter fun e =>
    !e.healthy &&
      (match e.lastFailure with
       | some t => st.cooldownPeriod ≤ now - t
       | none => false)
  if healthy.isEmpty then
    match eligible.getLast? with
    | some e => .ok (e, st)
    | none => .error "No healthy providers available"
  else
    let base : Int := max 0 (healthy.getLastD (initEntry "" "" 0)).priority
    let weighted := weightedListOf base healthy
    match weighted[st.roundRobinIndex % weighted.length]? with
    | some e => .ok (e, { st with roundRobinIndex := st.roundRobinIndex + 1 })
    | none => .error "unreachable: empty weighted list"

/-- The minimum priority of a list of entries (0 for the empty list, a
case `getProvider` never reaches). -/
def minPriority : List PoolEntry → Int
  | [] => 0
  | [e] => e.priority
  | e :: rest => min e.priority (minPriority rest)

/-- The pool's construction invariant: entries are sorted by priority
descending (the constructor sorts) and priorities are positive (the
configuration schema validates `priority` as a positive integer). -/
def PoolInvariant (st : PoolState) : Prop :=
  st.providerList.Pairwise (fun a b => b.priority ≤ a.priority) ∧
  ∀ e ∈ st.providerList, 1 ≤ e.priority

/-! ## Rate-limit classification (`isRateLimitError`)

The predicate receives an arbitrary JavaScript value (`unknown`).  The
universe below covers the shapes the function distinguishes: `null`,
`undefined`, strings, numbers, and objects carrying an optional `message`
property, an optional `code` property and a `toString()` result. -/

/-- A JavaScript value as seen by the error classifiers.  For an object,
`message` and `code` are the properties of those names (absent = `none`)
and `toStr` is the string its `toString()` returns (`"[object Object]"`
for a plain object that does not override it). -/
inductive JSValue where
  | jsNull
  | jsUndefined
  | str (s : String)
  | num (n : Int)
  | obj (message : Option JSValue) (code : Option JSValue) (toStr : String)

/-- Does the lowercased string contain one of the four rate-limit tokens? -/
def rateTokenIn (s : String) : Bool :=
  lowerContains s "429" ||
  lowerContains s "rate limit" ||
  lowerContains s "too many requests" ||
  lowerContains s "quota exceeded"

/-- `isRateLimitError` (src/providers/rate-limiter.ts): `null`/`undefined`
fail; an object with a string `message` property is decided by that
message alone; a string value is decided by itself; any other object is
decided by its `toString()` unless that is `"[object Object]"`; all else
is `false`. -/
def isRateLimitError : JSValue → Bool
  | .jsNull => false
  | .jsUndefined => false
  | .str s => rateTokenIn s
  | .num _ => false
  | .obj message _ toStr =>
    match message with
    | some (.str m) => rateTokenIn m
    | _ => if toStr != "[object Object]" then rateTokenIn toStr else false

/-- Modelled from the claim's words, for refutation: `true` iff the
value's `message`, its string representation, or its numeric `code`
contains one of the four tokens (case-insensitively). -/
def rateLimitClaimPred : JSValue → Bool
  | .jsNull => false
  | .jsUndefined => false
  | .str s => rateTokenIn s
  | .num n => rateTokenIn (toString n)
  | .obj message code toStr =>
    (match message with
     | some (.str m) => rateTokenIn m
     | _ => false) ||
    rateTokenIn toStr ||
    (match code with
     | some (.num c) => rateTokenIn (toString c)
     | _ => false)

/-- The `{message: "boom", code: 429}` object: a plain object whose
default `toString()` yields `"[object Object]"`. -/
def rateLimitCx : JSValue :=
  .obj (some (.str "boom")) (some (.num 429)) "[object Object]"

/-! ## ABI decoding (`EventDecoder.decode`) and timestamp enrichment

`ethers`' `Interface.parseLog` is external code; it is modelled as an
oracle that, for a log's topics and data, either yields the parsed event
name and serialized payload, reports no matching event fragment
(`parseLog` returns `null`), or throws. -/

/-- The outcome of `iface.parseLog` (and of the payload serialization
inside the same `try` block). -/
inductive ParseOutcome where
  | parsed (name : String) (eventData : String)
  | noMatch
  | throws (msg : String)
deriving DecidableEq, Repr

/-- The `DecodedEvent` that `EventDecoder.decode` assembles for a log
parsed as event `name` with serialized payload `eventData`: position
fields come from the raw log and `blockTimestamp` is the sentinel 0. -/
def decodedOf (log : RawLog) (name eventData : String) : DecodedEvent :=
  { contractAddress := log.address
    blockNumber := log.blockNumber
    blockTimestamp := 0
    transactionHash := log.transactionHash
    logIndex := log.logIndex
    eventName := name
    eventData := eventData }

/-- `EventDecoder.decode`: `null` when `parseLog` finds no matching event
or anything inside the `try` throws; otherwise a `DecodedEvent` whose
`blockTimestamp` is the sentinel 0, to be filled by the fetcher later. -/
def decode (parseLog : List String → String → ParseOutcome) (log : RawLog) :
    Option DecodedEvent :=
  match parseLog log.topics log.data with
  | .noMatch => none
  | .throws _ => none
  | .parsed name eventData => some (decodedOf log name eventData)

/-- `[...new Set(xs)]`: deduplicate keeping first occurrences. -/
def dedupFirst (l : List Nat) : List Nat :=
  l.foldl (fun acc n => if acc.contains n then acc else acc ++ [n]) []

/-- `EventFetcher.enrichWithTimestamps`.  `getBlockTs` is the
`provider.getBlock` oracle (`none` models a `null` block).  Returns the
enriched events, the list of block numbers actually fetched via
`getBlock`, and the updated `blockTimestampCache`.  An empty log list
returns immediately. -/
def enrichWithTimestamps (dec : RawLog → Option DecodedEvent)
    (getBlockTs : Nat → Option Nat) (cache : List (Nat × Nat))
    (logs : List RawLog) :
    List DecodedEvent × List Nat × List (Nat × Nat) :=
  if logs.length = 0 then
    ([], [], cache)
  else
    let uncached := (dedupFirst (logs.map (·.blockNumber))).filter
      fun n => (cache.lookup n).isNone
    let cache' := uncached.foldl
      (fun c n =>
        match getBlockTs n with
        | some ts => (n, ts) :: c
        | none => c)
      cache
    let enriched := logs.filterMap fun log =>
      match dec log with
      | none => none
      | some de =>
        match cache'.lookup log.blockNumber with
        | none => none
        | some ts => some { de with blockTimestamp := ts }
    (enriched, uncached, cache')

/-! ## Indexer coordinator (`Indexer.watchContract`, `Indexer.indexBlocks`) -/

/-- The start-block selection of `Indexer.watchContract`: with
`from_block: null` the current head is used; otherwise start at
`from_block`, bumped to `lastSynced + 1` when storage holds a
`last_block` that is at least `from_block`. -/
def resolveStartBlock (fromBlockCfg : Option Nat) (lastSynced : Option Nat)
    (headBlock : Nat) : Nat :=
  match fromBlockCfg with
  | none => headBlock
  | some fb =>
    match lastSynced with
    | some lb => if fb ≤ lb then lb + 1 else fb
    | none => fb

/-- The storage step of one `Indexer.indexBlocks` iteration: after the
fetch produced `events` over `[fromBlock, toBlock]`, commit them together
with the new `last_block = toBlock` via the atomic adapter call. -/
def indexBlocksCommit (now : Nat) (db : DB) (contractAddress : String)
    (chainId toBlock : Nat) (events : List DecodedEvent) : DB :=
  updateSyncStateAndInsertEvents now db contractAddress chainId toBlock events

/-! ## Derived definitions used by the statements -/

/-- The healthy sublist of the pool, in list (priority-descending) order. -/
def healthyOf (st : PoolState) : List PoolEntry :=
  st.providerList.filter (·.healthy)

/-- Modelled from the claim's words: the priority-weighted list in which
every healthy endpoint appears `max(1, priority - min_priority + 1)`
times. -/
def claimWeighted (healthy : List PoolEntry) : List PoolEntry :=
  healthy.flatMap fun e =>
    List.replicate (max 1 (e.priority - minPriority healthy + 1)).toNat e

/-- The string `message` property of a value, when the value is an object
carrying one. -/
def messageStringOf : JSValue → Option String
  | .obj (some (.str m)) _ _ => some m
  | _ => none

/-- The chunk-size update applied on a block-range error:
`max(floor(chunkSize / 2), 100)`. -/
def chunkShrink (c : Nat) : Nat := max (c / 2) 100

/-- A sample contract address for the storage scenarios. -/
def addrA : String := "0xc0ffee"

/-- Scenario 5's event at block 100. -/
def eAt100 : DecodedEvent :=
  { contractAddress := addrA, blockNumber := 100, blockTimestamp := 1700000000
    transactionHash := "0xt1", logIndex := 0, eventName := "Transfer"
    eventData := "{}" }

/-- Scenario 5's event at block 101. -/
def eAt101 : DecodedEvent :=
  { contractAddress := addrA, blockNumber := 101, blockTimestamp := 1700000012
    transactionHash := "0xt2", logIndex := 3, eventName := "Transfer"
    eventData := "{}" }

/-- The store after scenario 5's commit on a fresh database. -/
def commitScenarioDB : DB :=
  updateSyncStateAndInsertEvents 1700000020 emptyDB addrA 1 101 [eAt100, eAt101]

/-- The `i`-th event of scenario 3's batch of 100 pairwise-distinct
events. -/
def mkEvent (i : Nat) : DecodedEvent :=
  { contractAddress := addrA, blockNumber := 17000000 + i, blockTimestamp := 0
    transactionHash := "0xbatch", logIndex := i, eventName := "Transfer"
    eventData := "{}" }

/-- Scenario 3's batch of 100 events. -/
def batch100 : List DecodedEvent := (List.range 100).map mkEvent

/-- A two-endpoint pool (priorities 2 and 1, both healthy, default
options) used to exercise the checkout policy. -/
def samplePool : PoolState :=
  { providerList := [initEntry "provider-2" "u2" 2, initEntry "provider-1" "u1" 1]
    roundRobinIndex := 0
    failureThreshold := 3
    cooldownPeriod := 30000 }

/-- A sample raw log used to exercise the decoder. -/
def sampleLog : RawLog :=
  { address := addrA, blockNumber := 17000007, transactionHash := "0xt9"
    logIndex := 2, topics := ["0xdeadbeef"], data := "0x00" }

/-! ## Helper lemmas -/

theorem insertStep_pair (now c : Nat) (rows : List EventRow) (e : DecodedEvent) :
    insertStep now (c, rows) e =
      (c + (insertIgnore now rows e).2, (insertIgnore now rows e).1) := rfl

theorem hasPair_insertIgnore_mono (now : Nat) (rows : List EventRow)
    (e : DecodedEvent) (tx : String) (li : Nat)
    (h : hasPair rows tx li = true) :
    hasPair (insertIgnore now rows e).1 tx li = true := by
  unfold insertIgnore
  split
  · exact h
  · simp only [hasPair, List.any_append] at h ⊢
    simp [h]

theorem hasPair_insertIgnore_self (now : Nat) (rows : List EventRow)
    (e : DecodedEvent) :
    hasPair (insertIgnore now rows e).1 e.transactionHash e.logIndex = true := by
  unfold insertIgnore
  split
  · assumption
  · simp [hasPair, List.any_append]

theorem foldRows_hasPair_mono (now : Nat) (tx : String) (li : Nat) :
    ∀ (evs : List DecodedEvent) (rows : List EventRow),
      hasPair rows tx li = true →
      hasPair (evs.foldl (fun acc e => (insertIgnore now acc e).1) rows) tx li
        = true := by
  intro evs
  induction evs with
  | nil => intro rows h; exact h
  | cons e rest ih =>
    intro rows h
    exact ih _ (hasPair_insertIgnore_mono now rows e tx li h)

theorem foldRows_all_present (now : Nat) :
    ∀ (evs : List DecodedEvent) (rows : List EventRow) (e : DecodedEvent),
      e ∈ evs →
      hasPair (evs.foldl (fun acc e => (insertIgnore now acc e).1) rows)
        e.transactionHash e.logIndex = true := by
  intro evs
  induction evs with
  | nil => intro rows e he; cases he
  | cons x rest ih =>
    intro rows e he
    rcases List.mem_cons.mp he with rfl | he'
    · exact foldRows_hasPair_mono now _ _ rest _
        (hasPair_insertIgnore_self now rows e)
    · exact ih _ e he'

theorem foldPair_rows (now : Nat) :
    ∀ (evs : List DecodedEvent) (c : Nat) (rows : List EventRow),
      (evs.foldl (insertStep now) (c, rows)).2 =
        evs.foldl (fun acc e => (insertIgnore now acc e).1) rows := by
  intro evs
  induction evs with
  | nil => intro c rows; rfl
  | cons e rest ih =>
    intro c rows
    simp only [List.foldl_cons, insertStep_pair]
    exact ih _ _

theorem foldPair_count (now : Nat) :
    ∀ (evs : List DecodedEvent) (c : Nat) (rows : List EventRow),
      (evs.foldl (insertStep now) (c, rows)).1 + rows.length =
        c + (evs.foldl (insertStep now) (c, rows)).2.length := by
  intro evs
  induction evs with
  | nil => intro c rows; simp
  | cons e rest ih =>
    intro c rows
    simp only [List.foldl_cons, insertStep_pair]
    have hlen : (insertIgnore now rows e).1.length =
        rows.length + (insertIgnore now rows e).2 := by
      unfold insertIgnore; split <;> simp
    have hih := ih (c + (insertIgnore now rows e).2) (insertIgnore now rows e).1
    omega

theorem foldPair_noop (now : Nat) :
    ∀ (evs : List DecodedEvent) (c : Nat) (rows : List EventRow),
      (∀ e ∈ evs, hasPair rows e.transactionHash e.logIndex = true) →
      evs.foldl (insertStep now) (c, rows) = (c, rows) := by
  intro evs
  induction evs with
  | nil => intro c rows _; rfl
  | cons e rest ih =>
    intro c rows hall
    have he : hasPair rows e.transactionHash e.logIndex = true := hall e (by simp)
    simp only [List.foldl_cons, insertStep_pair]
    rw [show insertIgnore now rows e = (rows, 0) from by
      unfold insertIgnore; rw [if_pos he]]
    simpa using ih c rows (fun x hx => hall x (by simp [hx]))

theorem insertEvents_events (now : Nat) (db : DB) (evs : List DecodedEvent) :
    (insertEvents now db evs).2.events =
      evs.foldl (fun acc x => (insertIgnore now acc x).1) db.events := by
  cases evs with
  | nil => rfl
  | cons e rest =>
    simp only [insertEvents]
    rw [if_neg (by simp)]
    exact foldPair_rows now (e :: rest) 0 db.events

theorem lookup_append_none (a : String) (r : SyncRow) :
    ∀ tbl : List (String × SyncRow), tbl.lookup a = none →
      (tbl ++ [(a, r)]).lookup a = some r := by
  intro tbl
  induction tbl with
  | nil => intro _; simp
  | cons kv t ih =>
    intro h
    cases kv with
    | mk k x =>
      by_cases hak : a = k
      · subst hak
        simp only [List.lookup_cons, beq_self_eq_true] at h
        exact absurd h (by simp)
      · simp only [List.cons_append, List.lookup_cons, beq_false_of_ne hak]
          at h ⊢
        exact ih h

theorem lookup_map_update (a : String) (bn now : Nat) :
    ∀ (tbl : List (String × SyncRow)) (row : SyncRow), tbl.lookup a = some row →
      (tbl.map fun kv =>
        if kv.1 == a then (kv.1, { row with last_block := bn, last_sync := now })
        else kv).lookup a = some { row with last_block := bn, last_sync := now } := by
  intro tbl
  induction tbl with
  | nil => intro row h; simp at h
  | cons kv t ih =>
    intro row h
    cases kv with
    | mk k x =>
      by_cases hak : a = k
      · subst hak
        simp only [List.lookup_cons, beq_self_eq_true] at h
        cases h
        simp
      · simp only [List.lookup_cons, beq_false_of_ne hak] at h
        simp only [List.map_cons]
        rw [show ((k, x).1 == a) = false from beq_false_of_ne (Ne.symm hak)]
        simp only [Bool.false_eq_true, if_false]
        simp only [List.lookup_cons, beq_false_of_ne hak]
        exact ih row h

theorem lookup_upsert (now : Nat) (a : String) (cid bn : Nat)
    (tbl : List (String × SyncRow)) :
    ((upsertSyncState now tbl a cid bn).lookup a).map (·.last_block) = some bn := by
  cases h : tbl.lookup a with
  | none =>
    simp only [upsertSyncState, h]
    rw [lookup_append_none a _ tbl h]
    rfl
  | some row =>
    simp only [upsertSyncState, h]
    rw [lookup_map_update a bn now tbl row h]
    rfl

theorem fetchLoop_chunkSize_mono (oracle : Nat → Nat × Nat → RpcOutcome)
    (toBlock : Nat) :
    ∀ fuel s s', 100 ≤ s.chunkSize →
      fetchLoop oracle toBlock fuel s = .ok s' →
      s'.chunkSize ≤ s.chunkSize ∧ 100 ≤ s'.chunkSize := by
  intro fuel
  induction fuel with
  | zero => intro s s' h hrun; simp [fetchLoop] at hrun
  | succ n ih =>
    intro s s' h hrun
    simp only [fetchLoop] at hrun
    split at hrun
    · split at hrun
      · obtain ⟨h1, h2⟩ := ih _ _ (by simpa using h) hrun
        exact ⟨by simpa using h1, h2⟩
      · split at hrun
        · obtain ⟨h1, h2⟩ := ih _ _ (by simp) hrun
          refine ⟨?_, h2⟩
          have h3 : max (s.chunkSize / 2) 100 ≤ s.chunkSize :=
            max_le (Nat.div_le_self _ _) h
          calc s'.chunkSize ≤ max (s.chunkSize / 2) 100 := by simpa using h1
            _ ≤ s.chunkSize := h3
        · exact absurd hrun (by simp)
    · have hss : s' = s := by cases hrun; rfl
      subst hss
      exact ⟨le_rfl, h⟩

theorem applyReports_append_one (thr : Nat) (e : PoolEntry)
    (rs : List PoolReport) (r : PoolReport) :
    applyReports thr e (rs ++ [r]) = applyReport thr (applyReports thr e rs) r := by
  simp [applyReports, List.foldl_append]

theorem trailingFailures_append_failure (rs : List PoolReport) (n : Nat)
    (m : String) :
    trailingFailures (rs ++ [.failure n m]) = trailingFailures rs + 1 := by
  simp [trailingFailures, List.reverse_append, PoolReport.isFailureReport]

theorem trailingFailures_append_success (rs : List PoolReport) (n : Nat) :
    trailingFailures (rs ++ [.success n]) = 0 := by
  simp [trailingFailures, List.reverse_append, PoolReport.isFailureReport]

theorem applyReports_counts (thr : Nat) (hthr : 0 < thr) (id url : String)
    (p : Int) :
    ∀ rs : List PoolReport,
      (applyReports thr (initEntry id url p) rs).consecutiveFailures =
        trailingFailures rs ∧
      (applyReports thr (initEntry id url p) rs).healthy =
        decide (trailingFailures rs < thr) := by
  intro rs
  induction rs using List.reverseRecOn with
  | nil => simp [applyReports, initEntry, trailingFailures, hthr]
  | append_singleton rs r ih =>
    obtain ⟨ih1, ih2⟩ := ih
    cases r with
    | success now =>
      simp [applyReports_append_one, applyReport, reportSuccessEntry,
        trailingFailures_append_success, hthr]
    | failure now msg =>
      rw [applyReports_append_one, trailingFailures_append_failure]
      simp only [applyReport, reportFailureEntry, ih1]
      by_cases hcase : thr ≤ trailingFailures rs + 1
      · simp only [if_pos hcase]
        constructor
        · trivial
        · simp
          omega
      · simp only [if_neg hcase]
        refine ⟨trivial, ?_⟩
        rw [ih2]
        have h1 : trailingFailures rs < thr := by omega
        have h2 : trailingFailures rs + 1 < thr := by omega
        simp [h1, h2]

theorem minPriority_le_head (x : PoolEntry) (xs : List PoolEntry) :
    minPriority (x :: xs) ≤ x.priority := by
  cases xs with
  | nil => simp [minPriority]
  | cons f t => exact min_le_left _ _

theorem minPriority_pos (l : List PoolEntry) (h : ∀ e ∈ l, 1 ≤ e.priority)
    (hne : l ≠ []) : 1 ≤ minPriority l := by
  induction l with
  | nil => exact absurd rfl hne
  | cons e rest ih =>
    cases rest with
    | nil => simpa [minPriority] using h e (by simp)
    | cons f t =>
      have h1 : 1 ≤ e.priority := h e (by simp)
      have h2 : 1 ≤ minPriority (f :: t) := ih (fun x hx => h x (by simp [hx])) (by simp)
      exact le_min h1 h2

theorem getLastD_priority_eq_min (l : List PoolEntry)
    (hp : l.Pairwise (fun a b => b.priority ≤ a.priority)) :
    ∀ d : PoolEntry, l ≠ [] → (l.getLastD d).priority = minPriority l := by
  induction l with
  | nil => intro d h; exact absurd rfl h
  | cons e rest ih =>
    intro d _
    cases rest with
    | nil => simp [minPriority, List.getLastD]
    | cons f t =>
      rw [List.getLastD_cons]
      have hp' := hp.of_cons
      rw [ih hp' e (by simp)]
      have h1 : minPriority (f :: t) ≤ f.priority := minPriority_le_head f t
      have h2 : f.priority ≤ e.priority := (List.pairwise_cons.mp hp).1 f (by simp)
      show minPriority (f :: t) = min e.priority (minPriority (f :: t))
      exact (min_eq_right (le_trans h1 h2)).symm

theorem isRateLimitError_obj_match (message code : Option JSValue)
    (toStr : String) :
    isRateLimitError (.obj message code toStr) =
      (match messageStringOf (.obj message code toStr) with
       | some m => rateTokenIn m
       | none => if toStr != "[object Object]" then rateTokenIn toStr else false) := by
  cases message with
  | none => rfl
  | some mv => cases mv <;> rfl

/-! ## Claim theorems -/

/-- Claim C1: the atomic commit `updateSyncStateAndInsertEvents` applies
both effects in one transaction: afterwards `getLastSyncedBlock` returns
the committed `last_block`, and the events table is exactly what the
insert-ignore batch insert of the same events produces.  Concretely,
after `Commit(addrA, chainId 1, lastBlock 101, [e@100, e@101])` on a
fresh store, `GetLastSyncedBlock(addrA) = 101` and querying events for
`addrA` returns exactly 2 rows. -/
theorem commit_atomic_sync_and_events :
    (∀ now db addr cid bn evs,
       getLastSyncedBlock
         (updateSyncStateAndInsertEvents now db addr cid bn evs) addr = some bn ∧
       (updateSyncStateAndInsertEvents now db addr cid bn evs).events =
         (insertEvents now db evs).2.events) ∧
    (getLastSyncedBlock commitScenarioDB addrA = some 101 ∧
     (queryEvents commitScenarioDB { contractAddress := some addrA }).length = 2) := by
  refine ⟨fun now db addr cid bn evs => ⟨?_, ?_⟩, by decide, by decide⟩
  · simp only [getLastSyncedBlock, updateSyncStateAndInsertEvents]
    exact lookup_upsert now addr cid bn db.sync_state
  · rw [insertEvents_events]
    cases evs with
    | nil => rfl
    | cons e rest =>
      simp only [updateSyncStateAndInsertEvents]
      rw [if_pos (by simp)]

/-- Claim C2: `insertEvents` is idempotent on the uniqueness pair
`(transaction_hash, log_index)`: re-inserting any batch returns 0 and
leaves the store unchanged, the returned count is exactly the number of
rows actually added, and for the concrete batch of 100 distinct events
the first call returns 100, the second 0, with 100 rows persisted. -/
theorem insertEvents_idempotent :
    (∀ now1 now2 db evs,
       insertEvents now2 (insertEvents now1 db evs).2 evs =
         (0, (insertEvents now1 db evs).2)) ∧
    (∀ now db evs,
       (insertEvents now db evs).1 + db.events.length =
         (insertEvents now db evs).2.events.length) ∧
    (insertEvents 0 emptyDB batch100).1 = 100 ∧
    (insertEvents 1 (insertEvents 0 emptyDB batch100).2 batch100).1 = 0 ∧
    (insertEvents 1 (insertEvents 0 emptyDB batch100).2 batch100).2.events.length
      = 100 := by
  refine ⟨?_, ?_, by decide, by decide, by decide⟩
  · intro now1 now2 db evs
    cases evs with
    | nil => rfl
    | cons e rest =>
      have hall : ∀ x ∈ (e :: rest),
          hasPair (insertEvents now1 db (e :: rest)).2.events
            x.transactionHash x.logIndex = true := by
        rw [insertEvents_events]
        intro x hx
        exact foldRows_all_present now1 _ _ x hx
      set db1 := (insertEvents now1 db (e :: rest)).2 with hdb1
      show insertEvents now2 db1 (e :: rest) = (0, db1)
      simp only [insertEvents]
      rw [if_neg (by simp)]
      rw [foldPair_noop now2 (e :: rest) 0 db1.events hall]
  · intro now db evs
    cases evs with
    | nil => simp [insertEvents]
    | cons e rest =>
      simp only [insertEvents]
      rw [if_neg (by simp)]
      have := foldPair_count now (e :: rest) 0 db.events
      simpa using this

/-- Claim C3: for the fetch over `[17000000, 17002000]` with initial
chunk 2000 whose first `getLogs` fails with "block range too large" and
whose later calls succeed, the loop issues exactly the four windows
`(17000000, 17001999)`, `(17000000, 17000999)`, `(17001000, 17001999)`,
`(17002000, 17002000)` and caches chunk size 1000 for the provider. -/
theorem fetchEvents_range_shrink_scenario :
    fetchLoop scenarioOracle 17002000 10 (initFetchState 17000000 2000) =
      .ok { currentBlock := 17002001, chunkSize := 1000, cachedLimit := some 1000,
            calls := [(17000000, 17001999), (17000000, 17000999),
                      (17001000, 17001999), (17002000, 17002000)],
            logs := [] } := rfl

/-- Claim C4 counterexample: with an initial chunk size of 50 (the
configuration schema only requires `batch_size` to be a positive
integer), the first block-range error raises the chunk size to 100, so
the chunk size is not monotonically non-increasing as the claim states. -/
theorem chunk_size_growth_counterexample :
    (fetchLoop scenarioOracle 99 10 (initFetchState 0 50)).toOption.map
      (·.chunkSize) = some 100 ∧
    (initFetchState 0 50).chunkSize = 50 ∧
    ¬ (100 : Nat) ≤ 50 := by decide

/-- Claim C4 (amended): provided the chunk size starts at least at 100
(the default initial chunk is 2000), it is monotonically non-increasing
over the fetch loop and never falls below 100; every block-range error
replaces it by `max(floor(chunkSize/2), 100)`, caches that value, and
retries the same cursor position; and the trajectory from 2000 runs
2000, 1000, 500, 250, 125, 100 and then stabilizes at 100. -/
theorem chunk_adaptation_amended :
    (∀ (oracle : Nat → Nat × Nat → RpcOutcome) (toBlock fuel : Nat)
        (s s' : FetchState), 100 ≤ s.chunkSize →
        fetchLoop oracle toBlock fuel s = .ok s' →
        s'.chunkSize ≤ s.chunkSize ∧ 100 ≤ s'.chunkSize) ∧
    (∀ (oracle : Nat → Nat × Nat → RpcOutcome) (toBlock fuel : Nat)
        (s : FetchState) (msg : String),
        s.currentBlock ≤ toBlock →
        oracle s.calls.length
          (s.currentBlock, rangeEndOf s.currentBlock s.chunkSize toBlock)
          = .err msg →
        isBlockRangeError msg = true →
        fetchLoop oracle toBlock (fuel + 1) s =
          fetchLoop oracle toBlock fuel
            { s with chunkSize := chunkShrink s.chunkSize
                     cachedLimit := some (chunkShrink s.chunkSize)
                     calls := s.calls ++
                       [(s.currentBlock,
                         rangeEndOf s.currentBlock s.chunkSize toBlock)] }) ∧
    (∀ c, 100 ≤ c → chunkShrink c ≤ c ∧ 100 ≤ chunkShrink c) ∧
    ((List.range 6).map (fun k => chunkShrink^[k] 2000) =
      [2000, 1000, 500, 250, 125, 100] ∧
     chunkShrink 100 = 100) := by
  refine ⟨fun oracle toBlock => fetchLoop_chunkSize_mono oracle toBlock,
    ?_, ?_, by decide⟩
  · intro oracle toBlock fuel s msg hle hor hrange
    simp [fetchLoop, hle, hor, hrange, chunkShrink]
  · intro c h
    exact ⟨max_le (Nat.div_le_self _ _) h, le_max_right _ _⟩

/-- Claim C4 witness: the amended invariant applied to the concrete
scenario run of claim C3 (initial chunk 2000). -/
theorem chunk_adaptation_amended_witness :
    (1000 : Nat) ≤ 2000 ∧ (100 : Nat) ≤ 1000 :=
  chunk_adaptation_amended.1 scenarioOracle 17002000 10
    (initFetchState 17000000 2000)
    ⟨17002001, 1000, some 1000,
      [(17000000, 17001999), (17000000, 17000999),
       (17001000, 17001999), (17002000, 17002000)], []⟩
    (by decide) rfl

/-- Claim C5: starting from a fresh entry, after any report sequence the
entry is unhealthy exactly when at least `failureThreshold` consecutive
failures arrived with no intervening success (threshold at least 1), and
a success report resets `consecutiveFailures` to 0 and sets `healthy`. -/
theorem report_health_threshold (thr : Nat) (hthr : 0 < thr)
    (id url : String) (p : Int) (rs : List PoolReport) :
    ((applyReports thr (initEntry id url p) rs).healthy = false ↔
      thr ≤ trailingFailures rs) ∧
    (∀ (e : PoolEntry) (now : Nat),
       applyReport thr e (.success now) =
         { e with healthy := true, consecutiveFailures := 0,
                  lastSuccess := some now, lastError := none }) := by
  refine ⟨?_, fun e now => rfl⟩
  obtain ⟨h1, h2⟩ := applyReports_counts thr hthr id url p rs
  rw [h2]
  simp [Nat.not_lt]

/-- Claim C5 witness: threshold 3, three consecutive failure reports. -/
theorem report_health_threshold_witness :
    (0 < 3) ∧
    ((applyReports 3 (initEntry "provider-1" "u1" 1)
        [.failure 10 "boom", .failure 20 "boom", .failure 30 "boom"]).healthy
        = false ↔
      3 ≤ trailingFailures
        [.failure 10 "boom", .failure 20 "boom", .failure 30 "boom"]) :=
  ⟨by decide,
   (report_health_threshold 3 (by decide) "provider-1" "u1" 1
     [.failure 10 "boom", .failure 20 "boom", .failure 30 "boom"]).1⟩

/-- Claim C6: with `from_block` configured, the coordinator starts at
`last_block + 1` when storage holds a `last_block ≥ from_block`, and at
`from_block` otherwise (smaller `last_block`, or no sync state at all). -/
theorem watchContract_start_block (fb head : Nat) (lastSynced : Option Nat) :
    (∀ lb, lastSynced = some lb → fb ≤ lb →
       resolveStartBlock (some fb) lastSynced head = lb + 1) ∧
    (∀ lb, lastSynced = some lb → lb < fb →
       resolveStartBlock (some fb) lastSynced head = fb) ∧
    (lastSynced = none → resolveStartBlock (some fb) lastSynced head = fb) := by
  refine ⟨?_, ?_, ?_⟩
  · rintro lb rfl h; simp [resolveStartBlock, h]
  · rintro lb rfl h; simp [resolveStartBlock, Nat.not_le.mpr h]
  · rintro rfl; rfl

/-- Claim C6 witness: `from_block = 100` with stored `last_block = 150`
resumes from 151. -/
theorem watchContract_start_block_witness :
    resolveStartBlock (some 100) (some 150) 999 = 151 :=
  (watchContract_start_block 100 999 (some 150)).1 150 rfl (by decide)

/-- Claim C7: whenever at least one endpoint is healthy, `getProvider`
selects position `roundRobinIndex % length` of the weighted list in which
every healthy endpoint appears `max(1, priority - min_priority + 1)`
times, and advances the cursor — for any pool satisfying the
construction invariant (priority-descending order, positive priorities). -/
theorem getProvider_weighted_selection (st : PoolState) (now : Nat)
    (hinv : PoolInvariant st) (hne : healthyOf st ≠ []) :
    ∃ e, (claimWeighted (healthyOf st))[st.roundRobinIndex %
          (claimWeighted (healthyOf st)).length]? = some e ∧
      getProvider now st =
        .ok (e, { st with roundRobinIndex := st.roundRobinIndex + 1 }) := by
  obtain ⟨hsort, hpos⟩ := hinv
  have hsorth : (healthyOf st).Pairwise (fun a b => b.priority ≤ a.priority) :=
    hsort.filter _
  have hposh : ∀ e ∈ healthyOf st, 1 ≤ e.priority :=
    fun e he => hpos e (List.mem_of_mem_filter he)
  have hminpos : 1 ≤ minPriority (healthyOf st) := minPriority_pos _ hposh hne
  have hbase : ((healthyOf st).getLastD (initEntry "" "" 0)).priority =
      minPriority (healthyOf st) :=
    getLastD_priority_eq_min _ hsorth _ hne
  have hw : weightedListOf
      (max 0 ((healthyOf st).getLastD (initEntry "" "" 0)).priority)
      (healthyOf st) = claimWeighted (healthyOf st) := by
    rw [hbase, max_eq_right (by omega : (0:Int) ≤ minPriority (healthyOf st))]
    rfl
  have hlen : 0 < (claimWeighted (healthyOf st)).length := by
    cases hh : healthyOf st with
    | nil => exact absurd hh hne
    | cons h t =>
      have h1 : (1:Int) ≤ max 1 (h.priority - minPriority (h :: t) + 1) :=
        le_max_left _ _
      have h2 : 1 ≤ (max 1 (h.priority - minPriority (h :: t) + 1)).toNat := by
        omega
      simp only [claimWeighted, List.flatMap_cons, List.length_append,
        List.length_replicate, hh]
      omega
  have hidx : st.roundRobinIndex % (claimWeighted (healthyOf st)).length <
      (claimWeighted (healthyOf st)).length := Nat.mod_lt _ hlen
  have hget : (claimWeighted (healthyOf st))[st.roundRobinIndex %
      (claimWeighted (healthyOf st)).length]? =
      some ((claimWeighted (healthyOf st)).get ⟨st.roundRobinIndex %
        (claimWeighted (healthyOf st)).length, hidx⟩) := by
    rw [List.getElem?_eq_getElem hidx, List.get_eq_getElem]
  refine ⟨(claimWeighted (healthyOf st)).get ⟨st.roundRobinIndex %
    (claimWeighted (healthyOf st)).length, hidx⟩, hget, ?_⟩
  have hie : (st.providerList.filter (·.healthy)).isEmpty = false := by
    rw [List.isEmpty_eq_false_iff_exists_mem]
    cases hh : healthyOf st with
    | nil => exact absurd hh hne
    | cons h t =>
      exact ⟨h, by
        rw [show st.providerList.filter (·.healthy) = healthyOf st from rfl, hh]
        simp⟩
  simp only [getProvider, hie, Bool.false_eq_true, if_false]
  rw [show st.providerList.filter (·.healthy) = healthyOf st from rfl, hw, hget]

/-- Claim C7 witness: the two-endpoint pool (priorities 2 and 1, both
healthy, cursor 0). -/
theorem getProvider_weighted_selection_witness :
    ∃ e, (claimWeighted (healthyOf samplePool))[samplePool.roundRobinIndex %
          (claimWeighted (healthyOf samplePool)).length]? = some e ∧
      getProvider 0 samplePool =
        .ok (e, { samplePool with
                  roundRobinIndex := samplePool.roundRobinIndex + 1 }) :=
  getProvider_weighted_selection samplePool 0 ⟨by decide, by decide⟩ (by decide)

/-- Claim C8 counterexample: the object `{message: "boom", code: 429}`
(default `toString()` giving "[object Object]") has a numeric code
containing "429", so the claim predicts `true`, but `isRateLimitError`
returns `false`: the implementation never consults the `code` property. -/
theorem isRateLimitError_claim_counterexample :
    isRateLimitError rateLimitCx = false ∧
    rateLimitClaimPred rateLimitCx = true := by
  constructor <;> rfl

/-- Claim C8 (amended): `isRateLimitError` returns true iff either the
value carries a string `message` property containing one of the four
tokens (a non-matching message suppresses all further checks), or the
value is itself a string containing a token, or it is an object without
a string message whose `toString()` differs from "[object Object]" and
contains a token; a numeric `code` property is never consulted, and
null, undefined and empty objects yield false. -/
theorem isRateLimitError_amended (v : JSValue) :
    (isRateLimitError v = true ↔
      ((∃ m, messageStringOf v = some m ∧ rateTokenIn m = true) ∨
       (∃ s, v = .str s ∧ rateTokenIn s = true) ∨
       (∃ message code toStr, v = .obj message code toStr ∧
         messageStringOf v = none ∧
         toStr ≠ "[object Object]" ∧ rateTokenIn toStr = true))) ∧
    isRateLimitError .jsNull = false ∧
    isRateLimitError .jsUndefined = false ∧
    isRateLimitError (.obj none none "[object Object]") = false := by
  refine ⟨?_, rfl, rfl, by decide⟩
  cases v with
  | jsNull => simp [isRateLimitError, messageStringOf]
  | jsUndefined => simp [isRateLimitError, messageStringOf]
  | num n => simp [isRateLimitError, messageStringOf]
  | str s => simp [isRateLimitError, messageStringOf]
  | obj message code toStr =>
    rw [isRateLimitError_obj_match]
    cases hm : messageStringOf (.obj message code toStr) with
    | some m =>
      constructor
      · intro h; exact Or.inl ⟨m, rfl, h⟩
      · rintro (⟨m', hm', htok⟩ | ⟨s, hs, _⟩ | ⟨m', c', t', heq, hnone, _, _⟩)
        · cases hm'; exact htok
        · exact absurd hs (by simp)
        · cases hnone
    | none =>
      constructor
      · intro h
        by_cases hts : toStr = "[object Object]"
        · simp [hts] at h
        · simp only [bne_iff_ne, ne_eq, hts, not_false_eq_true, if_true,
            ite_true] at h
          exact Or.inr (Or.inr ⟨message, code, toStr, rfl, rfl, hts, h⟩)
      · rintro (⟨m', hm', _⟩ | ⟨s, hs, _⟩ | ⟨m', c', t', heq, _, hne, htok⟩)
        · cases hm'
        · exact absurd hs (by simp)
        · cases heq
          simp [bne_iff_ne, hne, htok]

/-- Claim C9 counterexample: an iteration whose fetch returns no logs
performs no `getBlock` calls and inserts no event rows, yet the commit it
still issues upserts `sync_state` — the store does change, so "no storage
writes" is false: on a fresh store the committed `last_block` appears. -/
theorem empty_fetch_commit_counterexample :
    (enrichWithTimestamps (fun _ => none) (fun _ => some 1700000000) [] []).2.1
      = [] ∧
    indexBlocksCommit 1700000020 emptyDB addrA 1 200 [] ≠ emptyDB ∧
    getLastSyncedBlock (indexBlocksCommit 1700000020 emptyDB addrA 1 200 [])
      addrA = some 200 := by
  refine ⟨rfl, by decide, by decide⟩

/-- Claim C9 (amended): when the fetch returns no logs, the enrichment
returns immediately — no `getBlock` calls, no cache change — and the
commit leaves the events table untouched, while still upserting the
`sync_state` row to the new `last_block`. -/
theorem empty_fetch_frame_amended :
    (∀ (dec : RawLog → Option DecodedEvent) (getB : Nat → Option Nat)
        (cache : List (Nat × Nat)),
       enrichWithTimestamps dec getB cache [] = ([], [], cache)) ∧
    (∀ now db addr cid tb,
       (indexBlocksCommit now db addr cid tb []).events = db.events ∧
       getLastSyncedBlock (indexBlocksCommit now db addr cid tb []) addr
         = some tb) := by
  refine ⟨fun dec getB cache => rfl, fun now db addr cid tb => ⟨rfl, ?_⟩⟩
  simp only [getLastSyncedBlock, indexBlocksCommit,
    updateSyncStateAndInsertEvents]
  exact lookup_upsert now addr cid tb db.sync_state

/-- Claim C10: `decode` is total with value `none` both when no ABI event
matches topic-0 (`parseLog` returns null) and when parsing throws on
malformed data; a successful parse yields the `DecodedEvent` with the
sentinel `blockTimestamp = 0`; and the fetcher's enrichment silently
skips every log that decodes to `none`. -/
theorem decode_total_and_fetcher_skips
    (parseLog : List String → String → ParseOutcome) (log : RawLog) :
    ((parseLog log.topics log.data = .noMatch → decode parseLog log = none) ∧
     (∀ msg, parseLog log.topics log.data = .throws msg →
        decode parseLog log = none) ∧
     (∀ name ed, parseLog log.topics log.data = .parsed name ed →
        decode parseLog log = some (decodedOf log name ed)) ∧
     (∀ de, decode parseLog log = some de → de.blockTimestamp = 0)) ∧
    (∀ (dec : RawLog → Option DecodedEvent) (getB : Nat → Option Nat)
        (cache : List (Nat × Nat)) (logs : List RawLog),
       (∀ l ∈ logs, dec l = none) →
       (enrichWithTimestamps dec getB cache logs).1 = []) := by
  refine ⟨⟨?_, ?_, ?_, ?_⟩, ?_⟩
  · intro h; simp [decode, h]
  · intro msg h; simp [decode, h]
  · intro name ed h; simp [decode, h]
  · intro de h
    unfold decode at h
    split at h
    · cases h
    · cases h
    · cases h; rfl
  · intro dec getB cache logs hnone
    cases logs with
    | nil => rfl
    | cons l rest =>
      simp only [enrichWithTimestamps]
      rw [if_neg (by simp)]
      apply List.filterMap_eq_nil_iff.mpr
      intro a ha
      rw [hnone a ha]

/-- Claim C10 witness: an ABI matching nothing decodes the sample log to
`none`, and the enrichment of that single undecodable log is empty. -/
theorem decode_total_and_fetcher_skips_witness :
    decode (fun _ _ => ParseOutcome.noMatch) sampleLog = none ∧
    (enrichWithTimestamps (fun _ => none) (fun _ => some 7) []
      [sampleLog]).1 = [] :=
  ⟨(decode_total_and_fetcher_skips (fun _ _ => ParseOutcome.noMatch)
      sampleLog).1.1 rfl,
   (decode_total_and_fetcher_skips (fun _ _ => ParseOutcome.noMatch)
      sampleLog).2 (fun _ => none) (fun _ => some 7) [] [sampleLog]
     (by intro l _; rfl)⟩

end Chaintap
